import Mathlib

/-!
Shallow embedding of the formula tokenizer of `src/src/Tokenizer.cpp`.

The tokenizer owns an immutable character stream `stream_`, a cursor `pos_`
and a scratch text buffer `value_`.  `next()` returns one token kind and
leaves the token's text in `value_`.  We model a call to `next()` as a pure
function from `(stream, pos)` to `(kind, text, newPos)`; the stream is a
`List Char`.

`Tokenizer.h` (the `Token` enum, the character-class predicates and the
`current/peak/step/eof` accessors) is not part of the sources, so those
pieces are modelled from the spec and marked as such below.  Everything in
`Tokenizer.cpp` itself is translated statement by statement, including its
quirks: the `Token::Error;` statement without `return` in `parseNumber`,
the `-` branch of `next()` that appends `-` without stepping past it, the
identifier loop that runs to end of input appending only alphabetic
characters, and the unknown-character branch that never advances the
cursor.
-/

namespace Zum

/-- The token kinds (`Token` enum, modelled from the spec: §3 lists
`Number, Cell, Identifier, Operator, LeftParenthesis, RightParenthesis,
EndOfFile, Error`). -/
inductive Token where
  | Number
  | Cell
  | Identifier
  | Operator
  | LeftParenthesis
  | RightParenthesis
  | EndOfFile
  | Error
  deriving DecidableEq, Repr

/-- Modelled from the spec: whitespace character class of §4.1
("space, tab, and other blank separators"); the predicate itself lives in
the missing `Tokenizer.h`. -/
def isWhitespace (c : Char) : Bool :=
  c.toNat = 32 || c.toNat = 9 || c.toNat = 10 || c.toNat = 13

/-- Modelled from the spec: digit character class of §4.1 ("ASCII 0-9"). -/
def isDigit (c : Char) : Bool :=
  48 ≤ c.toNat && c.toNat ≤ 57

/-- Modelled from the spec: alphabetic character class of §4.1
("ASCII letters only"). -/
def isAlpha (c : Char) : Bool :=
  (97 ≤ c.toNat && c.toNat ≤ 122) || (65 ≤ c.toNat && c.toNat ≤ 90)

/-- Modelled from the spec: upper-alphabetic character class of §4.1
("ASCII A-Z"). -/
def isUpperAlpha (c : Char) : Bool :=
  65 ≤ c.toNat && c.toNat ≤ 90

/-- Modelled from the spec: operator character class of §4.1, the fixed set
`{+, -, *, /, =, <, >, ^}` (code points 43, 45, 42, 47, 61, 60, 62, 94). -/
def isOperator (c : Char) : Bool :=
  c.toNat = 43 || c.toNat = 45 || c.toNat = 42 || c.toNat = 47 ||
  c.toNat = 61 || c.toNat = 60 || c.toNat = 62 || c.toNat = 94

/-- Modelled from the spec: `eof()` of the missing `Tokenizer.h` — the
cursor has reached the end of the stream. -/
def eof (s : List Char) (pos : Nat) : Bool :=
  s.length ≤ pos

/-- Modelled from the spec: `current()` of the missing `Tokenizer.h`.  The
spec demands the lexer "must never read past the end of `input`", so the
accessor is bounds-checked and yields the NUL sentinel at or past the
end. -/
def current (s : List Char) (pos : Nat) : Char :=
  s.getD pos (Char.ofNat 0)

/-- Modelled from the spec: `peak()` of the missing `Tokenizer.h` — one
character of lookahead, bounds-checked like `current()`. -/
def peak (s : List Char) (pos : Nat) : Char :=
  current s (pos + 1)

/-- One fuel-indexed unfolding of the loop
`while (!eof() && isWhitespace(current())) step();` of
`Tokenizer::eatWhitespace`.  Each iteration advances the cursor by one, so
`s.length - pos` units of fuel always suffice (proved in
`eatWhitespaceGo_congr`). -/
def eatWhitespaceGo : Nat → List Char → Nat → Nat
  | 0, _, pos => pos
  | fuel + 1, s, pos =>
    if eof s pos then pos
    else if isWhitespace (current s pos) then eatWhitespaceGo fuel s (pos + 1)
    else pos

/-- `Tokenizer::eatWhitespace` (Tokenizer.cpp lines 64-68). -/
def eatWhitespace (s : List Char) (pos : Nat) : Nat :=
  eatWhitespaceGo (s.length - pos) s pos

/-- One fuel-indexed unfolding of the digit-run loop
`while (!eof() && isDigit(current())) { value_.append(current()); step(); }`
used twice inside `Tokenizer::parseNumber`. -/
def digitRunGo : Nat → List Char → Nat → List Char → List Char × Nat
  | 0, _, pos, v => (v, pos)
  | fuel + 1, s, pos, v =>
    if eof s pos then (v, pos)
    else if isDigit (current s pos) then
      digitRunGo fuel s (pos + 1) (v ++ [current s pos])
    else (v, pos)

/-- The digit-run loop of `Tokenizer::parseNumber`, with its sufficient
fuel `s.length - pos`. -/
def digitRun (s : List Char) (pos : Nat) (v : List Char) : List Char × Nat :=
  digitRunGo (s.length - pos) s pos v

/-- The diagnostic text built by the malformed-number branch of
`Tokenizer::parseNumber` (lines 85-89):
`"Parse error - expected digit but got " + peak() + " in number " + number`. -/
def expectedDigitText (c : Char) (number : List Char) : List Char :=
  ("Parse error - expected digit but got ").toList ++ [c] ++
    (" in number ").toList ++ number

/-- `Tokenizer::parseNumber` (Tokenizer.cpp lines 70-106).
`v` is the content of `value_` on entry (`['-']` when entered through the
signed-number branch of `next()`, `[]` otherwise).

Note the translation of lines 81-91: when the character after the digit
run is `.` and the character after that is not a digit, the C++ builds the
diagnostic in `value_` and then evaluates `Token::Error;` as a discarded
expression — there is no `return`, so control falls through to
`return Token::Number;` at line 105 with the cursor still on the `.`. -/
def parseNumber (s : List Char) (pos : Nat) (v : List Char) : Token × List Char × Nat :=
  let r := digitRun s (pos + 1) (v ++ [current s pos])
  if current s r.2 = '.' then
    if !isDigit (peak s r.2) then
      (Token.Number, expectedDigitText (peak s r.2) r.1, r.2)
    else
      let r2 := digitRun s (r.2 + 1) (r.1 ++ [current s r.2])
      (Token.Number, r2.1, r2.2)
  else
    (Token.Number, r.1, r.2)

/-- One fuel-indexed unfolding of the loop of `Tokenizer::parseIdentifier`
(lines 116-130).  As written in the C++ the loop body is: an empty
`if (type == Token::Cell) {}`, then
`if (isAlpha(current())) value_.append(current());`, then an unconditional
`step();` — so the loop consumes every remaining character and appends
only the alphabetic ones. -/
def identGo : Nat → List Char → Nat → List Char → List Char × Nat
  | 0, _, pos, v => (v, pos)
  | fuel + 1, s, pos, v =>
    if eof s pos then (v, pos)
    else identGo fuel s (pos + 1)
      (if isAlpha (current s pos) then v ++ [current s pos] else v)

/-- The identifier loop with its sufficient fuel `s.length - pos`. -/
def identRun (s : List Char) (pos : Nat) (v : List Char) : List Char × Nat :=
  identGo (s.length - pos) s pos v

/-- `Tokenizer::parseIdentifier` (Tokenizer.cpp lines 108-134).  The local
`bool hasNumber = false;` of line 111 is never read and is dropped. -/
def parseIdentifier (s : List Char) (pos : Nat) (v : List Char) : Token × List Char × Nat :=
  let type := if isUpperAlpha (current s pos) then Token.Cell else Token.Identifier
  let r := identRun s (pos + 1) (v ++ [current s pos])
  (type, r.1, r.2)

/-- The diagnostic text of the unknown-character branch of
`Tokenizer::next` (lines 58-59). -/
def unknownCharText (c : Char) : List Char :=
  ("Parse error - unknown character: ").toList ++ [c]

/-- `Tokenizer::next` (Tokenizer.cpp lines 10-62), as a pure function from
`(stream, cursor)` to `(kind, text, new cursor)`.  `value_.clear()` is the
empty accumulator passed to the sub-parsers.

Quirks translated faithfully:
* the signed-number branch (lines 22-29) appends `-` to `value_` but does
  not `step()`, so `parseNumber` re-reads the same `-` as its first
  character;
* the unknown-character branch (lines 57-61) returns `Error` without
  stepping, so the cursor stays on the offending character. -/
def next (s : List Char) (pos : Nat) : Token × List Char × Nat :=
  let p := eatWhitespace s pos
  if eof s p then (Token.EndOfFile, [], p)
  else if isDigit (current s p) then parseNumber s p []
  else if current s p = '-' then
    if isDigit (peak s p) then parseNumber s p ['-']
    else parseIdentifier s p []
  else if current s p = '(' then (Token.LeftParenthesis, [], p + 1)
  else if current s p = ')' then (Token.RightParenthesis, [], p + 1)
  else if isOperator (current s p) &&
      (isWhitespace (peak s p) || isAlpha (peak s p) || isDigit (peak s p)) then
    (Token.Operator, [current s p], p + 1)
  else if isAlpha (current s p) then parseIdentifier s p []
  else (Token.Error, unknownCharText (current s p), p)

/-- The cursor after `n` successive calls to `next()` starting at `pos`
(the stream is fixed for the tokenizer's lifetime). -/
def runPos (s : List Char) (pos : Nat) : Nat → Nat
  | 0 => pos
  | n + 1 => (next s (runPos s pos n)).2.2

/-! ### Facts about the character classes and accessors -/

theorem ne_of_toNat_ne {c d : Char} (h : c.toNat ≠ d.toNat) : c ≠ d :=
  fun he => h (by rw [he])

theorem eof_false_of_lt {s : List Char} {pos : Nat} (h : pos < s.length) :
    eof s pos = false := by
  simp only [eof, decide_eq_false_iff_not]
  omega

theorem eof_true_of_le {s : List Char} {pos : Nat} (h : s.length ≤ pos) :
    eof s pos = true := by
  simp only [eof, decide_eq_true_eq]
  exact h

theorem current_of_le {s : List Char} {pos : Nat} (h : s.length ≤ pos) :
    current s pos = Char.ofNat 0 := by
  unfold current
  exact List.getD_eq_default _ _ h

theorem current_of_lt {s : List Char} {pos : Nat} (h : pos < s.length) :
    current s pos = s[pos] := by
  unfold current
  exact List.getD_eq_getElem _ _ h

theorem lt_of_current_ne {s : List Char} {pos : Nat}
    (h : current s pos ≠ Char.ofNat 0) : pos < s.length := by
  by_contra hn
  exact h (current_of_le (by omega))

theorem isAlpha_toNat {c : Char} (h : isAlpha c = true) :
    (97 ≤ c.toNat ∧ c.toNat ≤ 122) ∨ (65 ≤ c.toNat ∧ c.toNat ≤ 90) := by
  simpa only [isAlpha, Bool.or_eq_true, Bool.and_eq_true, decide_eq_true_eq] using h

theorem isDigit_false_of_alpha {c : Char} (h : isAlpha c = true) : isDigit c = false := by
  have := isAlpha_toNat h
  simp only [isDigit, Bool.and_eq_false_iff, decide_eq_false_iff_not]
  omega

theorem isWhitespace_false_of_alpha {c : Char} (h : isAlpha c = true) :
    isWhitespace c = false := by
  have := isAlpha_toNat h
  simp only [isWhitespace, Bool.or_eq_false_iff, decide_eq_false_iff_not]
  omega

theorem isOperator_false_of_alpha {c : Char} (h : isAlpha c = true) :
    isOperator c = false := by
  have := isAlpha_toNat h
  simp only [isOperator, Bool.or_eq_false_iff, decide_eq_false_iff_not]
  omega

theorem alpha_ne_minus {c : Char} (h : isAlpha c = true) : c ≠ '-' := by
  have h1 := isAlpha_toNat h
  refine ne_of_toNat_ne ?_
  rw [show ('-').toNat = 45 from by decide]
  omega

theorem alpha_ne_lparen {c : Char} (h : isAlpha c = true) : c ≠ '(' := by
  have h1 := isAlpha_toNat h
  refine ne_of_toNat_ne ?_
  rw [show ('(').toNat = 40 from by decide]
  omega

theorem alpha_ne_rparen {c : Char} (h : isAlpha c = true) : c ≠ ')' := by
  have h1 := isAlpha_toNat h
  refine ne_of_toNat_ne ?_
  rw [show (')').toNat = 41 from by decide]
  omega

/-! ### Facts about the whitespace loop -/

theorem eatWhitespaceGo_of_eof {s : List Char} {pos : Nat} (h : s.length ≤ pos)
    (fuel : Nat) : eatWhitespaceGo fuel s pos = pos := by
  cases fuel <;> simp [eatWhitespaceGo, eof_true_of_le h]

theorem eatWhitespaceGo_not_ws {s : List Char} {pos : Nat} (fuel : Nat)
    (h : isWhitespace (current s pos) = false) :
    eatWhitespaceGo fuel s pos = pos := by
  cases fuel <;> simp [eatWhitespaceGo, h]

theorem eatWhitespace_not_ws {s : List Char} {pos : Nat}
    (h : isWhitespace (current s pos) = false) :
    eatWhitespace s pos = pos :=
  eatWhitespaceGo_not_ws _ h

theorem eatWhitespaceGo_le {s : List Char} :
    ∀ (fuel pos : Nat), pos ≤ eatWhitespaceGo fuel s pos := by
  intro fuel
  induction fuel with
  | zero => intro pos; exact le_refl pos
  | succ n ih =>
    intro pos
    simp only [eatWhitespaceGo]
    split
    · exact le_refl _
    · split
      · exact le_trans (Nat.le_succ pos) (ih (pos + 1))
      · exact le_refl _

theorem eatWhitespaceGo_le_length {s : List Char} :
    ∀ (fuel pos : Nat), pos ≤ s.length → eatWhitespaceGo fuel s pos ≤ s.length := by
  intro fuel
  induction fuel with
  | zero => intro pos h; exact h
  | succ n ih =>
    intro pos h
    simp only [eatWhitespaceGo]
    split
    · exact h
    · rename_i heof
      have hlt : pos < s.length := by
        by_contra hc
        exact heof (eof_true_of_le (by omega))
      split
      · exact ih (pos + 1) (by omega)
      · exact h

theorem eatWhitespaceGo_congr {s : List Char} :
    ∀ f1 f2 pos, s.length - pos ≤ f1 → s.length - pos ≤ f2 →
      eatWhitespaceGo f1 s pos = eatWhitespaceGo f2 s pos := by
  intro f1
  induction f1 with
  | zero =>
    intro f2 pos h1 _
    rw [eatWhitespaceGo_of_eof (by omega), eatWhitespaceGo_of_eof (by omega)]
  | succ n ih =>
    intro f2 pos h1 h2
    rcases le_or_lt s.length pos with he | he
    · rw [eatWhitespaceGo_of_eof he, eatWhitespaceGo_of_eof he]
    · cases f2 with
      | zero => omega
      | succ m =>
        simp only [eatWhitespaceGo, eof_false_of_lt he, Bool.false_eq_true, if_false]
        by_cases hw : isWhitespace (current s pos) = true
        · simp only [hw, if_true]
          exact ih m (pos + 1) (by omega) (by omega)
        · rw [Bool.not_eq_true] at hw
          simp only [hw, Bool.false_eq_true, if_false]

/-! ### Facts about the digit-run loop -/

theorem digitRunGo_of_eof {s : List Char} {pos : Nat} (h : s.length ≤ pos)
    (fuel : Nat) (v : List Char) : digitRunGo fuel s pos v = (v, pos) := by
  cases fuel <;> simp [digitRunGo, eof_true_of_le h]

theorem digitRunGo_le {s : List Char} :
    ∀ (fuel pos : Nat) (v : List Char), pos ≤ (digitRunGo fuel s pos v).2 := by
  intro fuel
  induction fuel with
  | zero => intro pos v; exact le_refl pos
  | succ n ih =>
    intro pos v
    simp only [digitRunGo]
    split
    · exact le_refl _
    · split
      · exact le_trans (Nat.le_succ pos) (ih (pos + 1) _)
      · exact le_refl _

theorem digitRunGo_le_length {s : List Char} :
    ∀ (fuel pos : Nat) (v : List Char), pos ≤ s.length →
      (digitRunGo fuel s pos v).2 ≤ s.length := by
  intro fuel
  induction fuel with
  | zero => intro pos v h; exact h
  | succ n ih =>
    intro pos v h
    simp only [digitRunGo]
    split
    · exact h
    · rename_i heof
      have hlt : pos < s.length := by
        by_contra hc
        exact heof (eof_true_of_le (by omega))
      split
      · exact ih (pos + 1) _ (by omega)
      · exact h

theorem digitRunGo_congr {s : List Char} :
    ∀ f1 f2 pos (v : List Char), s.length - pos ≤ f1 → s.length - pos ≤ f2 →
      digitRunGo f1 s pos v = digitRunGo f2 s pos v := by
  intro f1
  induction f1 with
  | zero =>
    intro f2 pos v h1 _
    rw [digitRunGo_of_eof (by omega), digitRunGo_of_eof (by omega)]
  | succ n ih =>
    intro f2 pos v h1 h2
    rcases le_or_lt s.length pos with he | he
    · rw [digitRunGo_of_eof he, digitRunGo_of_eof he]
    · cases f2 with
      | zero => omega
      | succ m =>
        simp only [digitRunGo, eof_false_of_lt he, Bool.false_eq_true, if_false]
        by_cases hd : isDigit (current s pos) = true
        · simp only [hd, if_true]
          exact ih m (pos + 1) _ (by omega) (by omega)
        · rw [Bool.not_eq_true] at hd
          simp only [hd, Bool.false_eq_true, if_false]

/-! ### Facts about the identifier loop -/

theorem identGo_spec {s : List Char} :
    ∀ (fuel pos : Nat) (v : List Char), s.length - pos ≤ fuel →
      identGo fuel s pos v =
        (v ++ (s.drop pos).filter isAlpha, max pos s.length) := by
  intro fuel
  induction fuel with
  | zero =>
    intro pos v h
    have hle : s.length ≤ pos := by omega
    simp [identGo, List.drop_eq_nil_of_le hle, Nat.max_eq_left hle]
  | succ n ih =>
    intro pos v h
    rcases le_or_lt s.length pos with he | he
    · simp [identGo, eof_true_of_le he, List.drop_eq_nil_of_le he, Nat.max_eq_left he]
    · simp only [identGo, eof_false_of_lt he, Bool.false_eq_true, if_false]
      rw [ih (pos + 1) _ (by omega)]
      rw [current_of_lt he, List.drop_eq_getElem_cons he, List.filter_cons]
      have hmax : max (pos + 1) s.length = max pos s.length := by omega
      by_cases ha : isAlpha s[pos] = true
      · simp [ha, hmax, List.append_assoc]
      · rw [Bool.not_eq_true] at ha
        simp [ha, hmax]

/-! ### Facts about the sub-parsers -/

/-- Every path of `parseNumber` returns the kind `Number` — including the
malformed-number path, whose `Token::Error;` lacks a `return`. -/
theorem parseNumber_kind (s : List Char) (pos : Nat) (v : List Char) :
    (parseNumber s pos v).1 = Token.Number := by
  simp only [parseNumber]
  split
  · split <;> rfl
  · rfl

theorem parseNumber_pos_bound {s : List Char} {pos : Nat} (v : List Char)
    (h : pos < s.length) :
    pos ≤ (parseNumber s pos v).2.2 ∧ (parseNumber s pos v).2.2 ≤ s.length := by
  simp only [parseNumber, digitRun]
  have h1 := digitRunGo_le (s := s) (s.length - (pos + 1)) (pos + 1) (v ++ [current s pos])
  have h2 := digitRunGo_le_length (s := s) (s.length - (pos + 1)) (pos + 1)
    (v ++ [current s pos]) (by omega)
  split
  · rename_i hdot
    have hlt : (digitRunGo (s.length - (pos + 1)) s (pos + 1) (v ++ [current s pos])).2 <
        s.length := by
      refine lt_of_current_ne ?_
      rw [hdot]
      decide
    split
    · constructor <;> simp <;> omega
    · have h3 := digitRunGo_le (s := s)
        (s.length - ((digitRunGo (s.length - (pos + 1)) s (pos + 1) (v ++ [current s pos])).2 + 1))
        ((digitRunGo (s.length - (pos + 1)) s (pos + 1) (v ++ [current s pos])).2 + 1)
        ((digitRunGo (s.length - (pos + 1)) s (pos + 1) (v ++ [current s pos])).1 ++
          [current s (digitRunGo (s.length - (pos + 1)) s (pos + 1) (v ++ [current s pos])).2])
      have h4 := digitRunGo_le_length (s := s)
        (s.length - ((digitRunGo (s.length - (pos + 1)) s (pos + 1) (v ++ [current s pos])).2 + 1))
        ((digitRunGo (s.length - (pos + 1)) s (pos + 1) (v ++ [current s pos])).2 + 1)
        ((digitRunGo (s.length - (pos + 1)) s (pos + 1) (v ++ [current s pos])).1 ++
          [current s (digitRunGo (s.length - (pos + 1)) s (pos + 1) (v ++ [current s pos])).2])
        (by omega)
      constructor <;> simp <;> omega
  · constructor <;> simp <;> omega

/-- Closed form of `parseIdentifier`: the token kind is decided by the case
of the first character, the text is the first character followed by every
later alphabetic character of the stream, and the cursor ends at the end
of the stream. -/
theorem parseIdentifier_eq (s : List Char) (pos : Nat) (v : List Char) :
    parseIdentifier s pos v =
      ((if isUpperAlpha (current s pos) then Token.Cell else Token.Identifier),
        v ++ current s pos :: (s.drop (pos + 1)).filter isAlpha,
        max (pos + 1) s.length) := by
  simp only [parseIdentifier, identRun]
  rw [identGo_spec _ _ _ (le_refl _)]
  simp

/-! ### Facts about `next` -/

theorem eatWhitespace_le {s : List Char} (pos : Nat) : pos ≤ eatWhitespace s pos :=
  eatWhitespaceGo_le _ _

theorem eatWhitespace_le_length {s : List Char} {pos : Nat} (h : pos ≤ s.length) :
    eatWhitespace s pos ≤ s.length :=
  eatWhitespaceGo_le_length _ _ h

/-- A single call to `next` never moves the cursor backwards and never
moves it past the end of the stream. -/
theorem next_pos_bound {s : List Char} {pos : Nat} (h : pos ≤ s.length) :
    pos ≤ (next s pos).2.2 ∧ (next s pos).2.2 ≤ s.length := by
  have hq1 : pos ≤ eatWhitespace s pos := eatWhitespace_le pos
  have hq2 : eatWhitespace s pos ≤ s.length := eatWhitespace_le_length h
  simp only [next]
  split
  · exact ⟨hq1, hq2⟩
  · rename_i heof
    have hlt : eatWhitespace s pos < s.length := by
      by_contra hc
      exact heof (eof_true_of_le (by omega))
    split
    · have := parseNumber_pos_bound (s := s) [] hlt
      constructor <;> omega
    · split
      · split
        · have := parseNumber_pos_bound (s := s) ['-'] hlt
          constructor <;> omega
        · rw [parseIdentifier_eq]
          constructor <;> simp <;> omega
      · split
        · constructor <;> simp <;> omega
        · split
          · constructor <;> simp <;> omega
          · split
            · constructor <;> simp <;> omega
            · split
              · rw [parseIdentifier_eq]
                constructor <;> simp <;> omega
              · exact ⟨hq1, hq2⟩

theorem lt_of_not_eof {s : List Char} {pos : Nat} (h : ¬ eof s pos = true) :
    pos < s.length := by
  rcases le_or_lt s.length pos with hc | hc
  · exact absurd (eof_true_of_le hc) h
  · exact hc

/-- A `Cell` or `Identifier` token can only come out of the
`parseIdentifier` branches of `next`, entered on an alphabetic character
or on `-` (when `-` is not followed by a digit). -/
theorem next_ident_cases {s : List Char} {pos : Nat} {k : Token} {v : List Char}
    {p2 : Nat} (h : next s pos = (k, v, p2))
    (hk : k = Token.Cell ∨ k = Token.Identifier) :
    ∃ q, q < s.length ∧ (isAlpha (current s q) = true ∨ current s q = '-') ∧
      parseIdentifier s q [] = (k, v, p2) := by
  simp only [next] at h
  split_ifs at h with h1 h2 h3 h4 h5 h6 h7 h8
  · rcases hk with rfl | rfl <;> simp at h
  · have hkind := parseNumber_kind s (eatWhitespace s pos) []
    rw [h] at hkind
    rcases hk with rfl | rfl <;> simp at hkind
  · have hkind := parseNumber_kind s (eatWhitespace s pos) ['-']
    rw [h] at hkind
    rcases hk with rfl | rfl <;> simp at hkind
  · exact ⟨eatWhitespace s pos, lt_of_not_eof h1, Or.inr h3, h⟩
  · rcases hk with rfl | rfl <;> simp at h
  · rcases hk with rfl | rfl <;> simp at h
  · rcases hk with rfl | rfl <;> simp at h
  · exact ⟨eatWhitespace s pos, lt_of_not_eof h1, Or.inl h8, h⟩
  · rcases hk with rfl | rfl <;> simp at h

/-- Running `next` on a one-token stream `c :: l` where `c` is alphabetic
or `-` and every later character is alphabetic: the whole stream is
consumed and reproduced as the text of one `Cell`/`Identifier` token. -/
theorem next_single_ident (c : Char) (l : List Char)
    (hc : isAlpha c = true ∨ c = '-') (hl : ∀ x ∈ l, isAlpha x = true) :
    next (c :: l) 0 =
      ((if isUpperAlpha c then Token.Cell else Token.Identifier), c :: l,
        l.length + 1) := by
  have hcur : current (c :: l) 0 = c := rfl
  have h0 : (0 : Nat) < (c :: l).length := by simp
  have hw : isWhitespace (current (c :: l) 0) = false := by
    rw [hcur]
    rcases hc with h | rfl
    · exact isWhitespace_false_of_alpha h
    · decide
  have hd : isDigit (current (c :: l) 0) = false := by
    rw [hcur]
    rcases hc with h | rfl
    · exact isDigit_false_of_alpha h
    · decide
  have hfilter : l.filter isAlpha = l := List.filter_eq_self.mpr hl
  rcases hc with ha | rfl
  · have h3 : current (c :: l) 0 ≠ '-' := by rw [hcur]; exact alpha_ne_minus ha
    have h5 : current (c :: l) 0 ≠ '(' := by rw [hcur]; exact alpha_ne_lparen ha
    have h6 : current (c :: l) 0 ≠ ')' := by rw [hcur]; exact alpha_ne_rparen ha
    have h7 : isOperator (current (c :: l) 0) = false := by
      rw [hcur]
      exact isOperator_false_of_alpha ha
    rw [hcur] at hd h3 h5 h6 h7
    simp only [next, eatWhitespace_not_ws hw, eof_false_of_lt h0, Bool.false_eq_true,
      if_false, hcur, parseIdentifier_eq]
    simp [hd, h3, h5, h6, h7, ha, hfilter,
      Nat.max_eq_right (by omega : 1 ≤ l.length + 1)]
  · have hp : isDigit (peak ('-' :: l) 0) = false := by
      cases l with
      | nil => decide
      | cons x xs =>
        have hx := hl x (by simp)
        simpa [peak, current] using isDigit_false_of_alpha hx
    simp only [next, eatWhitespace_not_ws hw, eof_false_of_lt h0, Bool.false_eq_true,
      if_false, hcur, parseIdentifier_eq]
    simp [hp, show isDigit '-' = false from by decide, hfilter,
      Nat.max_eq_right (by omega : 1 ≤ l.length + 1)]

/-! ### The claims -/

/-- C1.  On `"12."` the code does not return an `Error` token: `parseNumber`
builds the diagnostic text in `value_` but the `Token::Error;` statement at
Tokenizer.cpp line 90 has no `return`, so control falls through to
`return Token::Number;` — the call yields kind `Number` carrying the
diagnostic text (which does contain `"12"` and the offending character,
here the NUL sentinel since nothing follows the dot), and the cursor is
left on the `.`. -/
theorem next_twelve_dot_returns_Number :
    next ['1', '2', '.'] 0 =
      (Token.Number, expectedDigitText (Char.ofNat 0) ['1', '2'], 2) := by
  decide

/-- C2.  On `"Sum1"` the identifier loop of `parseIdentifier` (Tokenizer.cpp
lines 116-130) consumes every remaining character and appends only the
alphabetic ones, so the token is `Cell` with text `"Sum"` — the digit `1`
is consumed but dropped from the text — instead of the maximal
alphanumeric run `"Sum1"`. -/
theorem next_Sum1_eval :
    next ['S', 'u', 'm', '1'] 0 = (Token.Cell, ['S', 'u', 'm'], 4) := by
  decide

/-- C3, counterexample.  On `"@"` the unknown-character branch of `next`
(Tokenizer.cpp lines 57-61) returns `Error` without advancing the cursor:
the new cursor is `0`, not past the `@`, and a second call returns `Error`
again instead of `EndOfFile`. -/
theorem unknown_char_cex :
    next ['@'] 0 = (Token.Error, unknownCharText '@', 0) ∧
      (next ['@'] (next ['@'] 0).2.2).1 = Token.Error := by
  decide

/-- C3, amended.  When the current character matches no recognized token
start, `next` returns `Error` with a diagnostic that ends in the offending
character, and the cursor does not move, so a subsequent call returns the
same `Error` token again rather than resynchronizing. -/
theorem next_unknown_char_error_no_advance {s : List Char} {pos : Nat}
    (h0 : pos < s.length)
    (hw : isWhitespace (current s pos) = false)
    (hd : isDigit (current s pos) = false)
    (hm : current s pos ≠ '-')
    (hl : current s pos ≠ '(')
    (hr : current s pos ≠ ')')
    (hop : (isOperator (current s pos) &&
      (isWhitespace (peak s pos) || isAlpha (peak s pos) ||
        isDigit (peak s pos))) = false)
    (ha : isAlpha (current s pos) = false) :
    next s pos = (Token.Error, unknownCharText (current s pos), pos) := by
  simp only [next, eatWhitespace_not_ws hw, eof_false_of_lt h0, Bool.false_eq_true,
    if_false, hd, hm, hl, hr, ha]
  simp
  intro hco
  rcases Bool.and_eq_false_iff.mp hop with hop1 | hop2
  · rw [hco] at hop1
    cases hop1
  · rw [Bool.or_eq_false_iff] at hop2
    obtain ⟨h12, h3⟩ := hop2
    rw [Bool.or_eq_false_iff] at h12
    exact ⟨⟨h12.1, h12.2⟩, h3⟩

/-- C3, witness for the amended claim at the concrete input `"@"`. -/
theorem next_unknown_char_error_no_advance_witness :
    next ['@'] 0 = (Token.Error, unknownCharText (current ['@'] 0), 0) :=
  next_unknown_char_error_no_advance (by decide) (by decide) (by decide)
    (by decide) (by decide) (by decide) (by decide) (by decide)

/-- C4, counterexample.  The first token of `"()"` is `LeftParenthesis`,
but its text is empty — `value_` is cleared at the start of `next` and the
parenthesis branches (Tokenizer.cpp lines 35-43) never append to it — so
the text is not `"("`. -/
theorem paren_text_cex : (next ['(', ')'] 0).2.1 ≠ ['('] := by decide

/-- C4, amended.  On `"()"` successive calls return `LeftParenthesis` and
then `RightParenthesis`, each consuming exactly its one character, but
both tokens carry the empty text rather than `"("` and `")"`. -/
theorem paren_tokens_empty_text :
    next ['(', ')'] 0 = (Token.LeftParenthesis, [], 1) ∧
      next ['(', ')'] 1 = (Token.RightParenthesis, [], 2) := by
  decide

/-- C5.  Once the cursor is at (or past) the end of the stream, `next`
returns `EndOfFile` with empty text and leaves the cursor unchanged — so
every subsequent call keeps returning `EndOfFile`.  All character reads in
the embedding go through the bounds-checked `current`/`peak`. -/
theorem next_at_end_returns_EndOfFile {s : List Char} {pos : Nat}
    (h : s.length ≤ pos) :
    next s pos = (Token.EndOfFile, [], pos) := by
  have hws : eatWhitespace s pos = pos := by
    unfold eatWhitespace
    rw [show s.length - pos = 0 from by omega]
    rfl
  simp [next, hws, eof_true_of_le h]

/-- C5, witness: at the end of the one-character stream `"a"`. -/
theorem next_at_end_returns_EndOfFile_witness :
    next ['a'] 1 = (Token.EndOfFile, [], 1) :=
  next_at_end_returns_EndOfFile (by decide)

/-- C6.  On `"-7"` the signed-number branch of `next` (Tokenizer.cpp lines
22-29) appends `-` to `value_` but does not step past it, and
`parseNumber` starts by appending the current character — still the same
`-` — so the call returns a single `Number` token whose text is `"--7"`,
not `"-7"`. -/
theorem next_neg7_eval :
    next ['-', '7'] 0 = (Token.Number, ['-', '-', '7'], 2) := by
  decide

/-- C7, counterexample.  The round-trip property fails: the
`LeftParenthesis` token produced from `"("` has empty text, and re-lexing
the empty text from position 0 yields `EndOfFile`, a different kind.  It
also fails for `Number`: `"-7"` produces a `Number` token with text
`"--7"`, and re-lexing `"--7"` yields an `Identifier` token with text
`"-"`.  It also fails for `Operator`: `"+ 1"` produces `Operator` with
text `"+"`, and re-lexing `"+"` alone yields `Error` (the lookahead after
`+` is then end of input). -/
theorem roundtrip_cex :
    ((next ['('] 0).1 = Token.LeftParenthesis ∧
      (next (next ['('] 0).2.1 0).1 = Token.EndOfFile) ∧
    ((next ['-', '7'] 0).1 = Token.Number ∧
      (next (next ['-', '7'] 0).2.1 0).1 = Token.Identifier ∧
      (next (next ['-', '7'] 0).2.1 0).2.1 = ['-']) ∧
    ((next ['+', ' ', '1'] 0).1 = Token.Operator ∧
      (next (next ['+', ' ', '1'] 0).2.1 0).1 = Token.Error) := by
  decide

/-- C7, amended.  The round-trip property does hold for the `Cell` and
`Identifier` kinds: any such token produced by `next`, re-lexed from
position 0, reproduces a first token of the same kind with the same text.
It fails for `Number`, `Operator`, `LeftParenthesis` and
`RightParenthesis` tokens (see the counterexample). -/
theorem roundtrip_cell_identifier {s : List Char} {pos : Nat} {k : Token}
    {v : List Char} {p2 : Nat} (h : next s pos = (k, v, p2))
    (hk : k = Token.Cell ∨ k = Token.Identifier) :
    (next v 0).1 = k ∧ (next v 0).2.1 = v := by
  obtain ⟨q, hq, hc, hpi⟩ := next_ident_cases h hk
  rw [parseIdentifier_eq] at hpi
  simp only [List.nil_append] at hpi
  injection hpi with hk2 hrest
  injection hrest with hv hp2
  have hl2 : ∀ x ∈ (s.drop (q + 1)).filter isAlpha, isAlpha x = true :=
    fun x hx => List.of_mem_filter hx
  subst hv
  subst hk2
  rw [next_single_ident (current s q) ((s.drop (q + 1)).filter isAlpha) hc hl2]
  exact ⟨rfl, rfl⟩

/-- C7, witness: the `Identifier` token lexed from `"ab"` re-lexes to
itself. -/
theorem roundtrip_cell_identifier_witness :
    (next ['a', 'b'] 0).1 = Token.Identifier ∧
      (next ['a', 'b'] 0).2.1 = ['a', 'b'] :=
  @roundtrip_cell_identifier ['a', 'b'] 0 Token.Identifier ['a', 'b'] 2
    (by decide) (Or.inr rfl)

/-- C8, auxiliary: the cursor stays within the stream across any number of
calls. -/
theorem runPos_le_length {s : List Char} {pos : Nat} (h : pos ≤ s.length) :
    ∀ n, runPos s pos n ≤ s.length
  | 0 => h
  | n + 1 => (next_pos_bound (runPos_le_length h n)).2

/-- C8.  Across every sequence of calls to `next` on a fixed stream the
cursor never moves backwards and always stays in `[0, length]`. -/
theorem cursor_monotone_bounded {s : List Char} {pos : Nat} (n : Nat)
    (h : pos ≤ s.length) :
    runPos s pos n ≤ runPos s pos (n + 1) ∧ runPos s pos n ≤ s.length :=
  ⟨(next_pos_bound (runPos_le_length h n)).1, runPos_le_length h n⟩

/-- C8, witness at the stream `"a"`. -/
theorem cursor_monotone_bounded_witness :
    runPos ['a'] 0 1 ≤ runPos ['a'] 0 2 ∧ runPos ['a'] 0 1 ≤ ['a'].length :=
  cursor_monotone_bounded 1 (by decide)

/-- C9.  When the current character is `-` and the character after it is
not a digit, `next` goes through `parseIdentifier`; since `-` is not
upper-alphabetic the token kind is `Identifier`, its text begins with `-`,
and no `Operator` token is produced. -/
theorem minus_nondigit_identifier {s : List Char} {pos : Nat}
    (hm : current s pos = '-') (hp : isDigit (peak s pos) = false) :
    (next s pos).1 = Token.Identifier ∧ ∃ l, (next s pos).2.1 = '-' :: l := by
  have h0 : pos < s.length := lt_of_current_ne (by rw [hm]; decide)
  have hw : isWhitespace (current s pos) = false := by rw [hm]; decide
  have hd : isDigit (current s pos) = false := by rw [hm]; decide
  simp [next, eatWhitespace_not_ws hw, eof_false_of_lt h0, hd, hm, hp,
    parseIdentifier_eq, show isUpperAlpha '-' = false from by decide,
    show isDigit '-' = false from by decide]

/-- C9, witness at the stream `"-"`. -/
theorem minus_nondigit_identifier_witness :
    (next ['-'] 0).1 = Token.Identifier ∧ ∃ l, (next ['-'] 0).2.1 = '-' :: l :=
  minus_nondigit_identifier (by decide) (by decide)

/-- C10.  Every loop of `next` terminates because each iteration advances
the cursor by one and the cursor is bounded by the stream length: for any
fuel of at least `s.length - pos`, each fuel-indexed loop has already
reached its fixed point — it equals the run with the canonical fuel. -/
theorem loops_fuel_sufficient (s : List Char) (pos : Nat) (v : List Char)
    (fuel : Nat) (h : s.length - pos ≤ fuel) :
    eatWhitespaceGo fuel s pos = eatWhitespace s pos ∧
      digitRunGo fuel s pos v = digitRun s pos v ∧
      identGo fuel s pos v = identRun s pos v := by
  refine ⟨eatWhitespaceGo_congr fuel (s.length - pos) pos h (le_refl _),
    digitRunGo_congr fuel (s.length - pos) pos v h (le_refl _), ?_⟩
  rw [identGo_spec _ _ _ h, identRun, identGo_spec _ _ _ (le_refl _)]

/-- C10, witness at the stream `" a"` with surplus fuel. -/
theorem loops_fuel_sufficient_witness :
    eatWhitespaceGo 5 [' ', 'a'] 0 = eatWhitespace [' ', 'a'] 0 ∧
      digitRunGo 5 [' ', 'a'] 0 ['x'] = digitRun [' ', 'a'] 0 ['x'] ∧
      identGo 5 [' ', 'a'] 0 ['x'] = identRun [' ', 'a'] 0 ['x'] :=
  loops_fuel_sufficient [' ', 'a'] 0 ['x'] 5 (by decide)

end Zum
